import Mathlib

/-!
Verification development for the "magic" receiver/exporter pair: a
request-scoped partial-aggregation buffer that accumulates metric
fragments by request identifier until a declared expected count is
reached, then emits the completed batch.

The definitions below are a shallow embedding of
`exporter/magicexporter/receiver.go` (`Exporter.ConsumeMetrics` and the
global `pending` map) and of the HTTP handler registered by
`setupRouter` in `receiver/magicreceiver/receiver.go`.
-/

namespace Magic

/-- The exporter local `Metric` struct: one named integer value
(`Name string, Value int64`). -/
structure Metric where
  name : String
  value : Int
  deriving DecidableEq

/-- Attribute values stored in a resource attribute map
(`pcommon.Value`, restricted to the string and integer cases this
pipeline uses). -/
inductive AttrValue where
  | str (s : String)
  | int (i : Int)
  deriving DecidableEq

/-- The behaviour of `pcommon.Value.Str()`: the string when the value is
a string, the empty string otherwise (also the zero value case). -/
def AttrValue.strVal : AttrValue → String
  | .str s => s
  | _ => ""

/-- The behaviour of `pcommon.Value.Int()`: the integer when the value
is an integer, zero otherwise (also the zero value case). -/
def AttrValue.intVal : AttrValue → Int
  | .int i => i
  | _ => 0

/-- Resource attribute key used by the pipeline for the request
identifier. -/
def keyRequestId : String := "RequestId"

/-- Resource attribute key used by the pipeline for the declared
expected fragment count. -/
def keyLen : String := "Len"

/-- `Attributes().Get(k)` followed by `.Str()`, with the zero value
(empty string) when the key is absent, as in Go. -/
def attrStr (attrs : List (String × AttrValue)) (k : String) : String :=
  match attrs.lookup k with
  | some v => v.strVal
  | none => ""

/-- `Attributes().Get(k)` followed by `.Int()`, with the zero value
(zero) when the key is absent, as in Go. -/
def attrInt (attrs : List (String × AttrValue)) (k : String) : Int :=
  match attrs.lookup k with
  | some v => v.intVal
  | none => 0

/-- One `pmetric.Metric` as this pipeline produces it: a name and the
integer values of its sum data points (`Sum().DataPoints()`). -/
structure PMetricData where
  name : String
  sumDataPoints : List Int
  deriving DecidableEq

/-- One `pmetric.ScopeMetrics`: its metric slice. -/
structure ScopeMetricsData where
  metrics : List PMetricData
  deriving DecidableEq

/-- One `pmetric.ResourceMetrics`: resource attributes and scope
metrics. -/
structure ResourceMetricsData where
  attributes : List (String × AttrValue)
  scopeMetrics : List ScopeMetricsData
  deriving DecidableEq

/-- A `pmetric.Metrics` value: its resource metrics slice. -/
structure PMetrics where
  resourceMetrics : List ResourceMetricsData
  deriving DecidableEq

/-- `pmetric.NewMetrics()`: the empty metrics value, with no resource
metrics at all. -/
def newMetrics : PMetrics := ⟨[]⟩

/-- The message the timer-based variant of `Receiver.Start` sends
downstream: exactly `pmetric.NewMetrics()`. -/
def timerStartMessage : PMetrics := newMetrics

/-- The global `pending map[string][]Metric` store, embedded as an
association list from request identifier to accumulated fragments. -/
abbrev Pending := List (String × List Metric)

/-- Map read `pending[requestId]` with its presence bit `ok`. -/
def alookup : Pending → String → Option (List Metric)
  | [], _ => none
  | (k, v) :: rest, key => if k = key then some v else alookup rest key

/-- Map write `pending[requestId] = val`: replace the binding when the
key is present, append a new binding otherwise. -/
def ainsert : Pending → String → List Metric → Pending
  | [], key, v => [(key, v)]
  | (k, w) :: rest, key, v =>
    if k = key then (k, v) :: rest else (k, w) :: ainsert rest key v

/-- Map delete `delete(pending, requestId)`: drop every binding for the
key. -/
def aremove : Pending → String → Pending
  | [], _ => []
  | (k, v) :: rest, key =>
    if k = key then aremove rest key else (k, v) :: aremove rest key

/-- The panics `Exporter.ConsumeMetrics` can hit: `ResourceMetrics().At(0)`
on an empty slice, `ScopeMetrics().At(0)` on an empty slice, and
`Sum().DataPoints().At(0)` on a metric with no data points. -/
inductive PanicKind where
  | rmIndex
  | smIndex
  | dpIndex
  deriving DecidableEq

/-- The observable outcome of one `Exporter.ConsumeMetrics` call: the
new `pending` store, the request identifier read from the message, and
whether the completion branch fired together with the batch it printed
(`complete = false` prints nothing: `batch = []`). -/
structure SubmitResult where
  pending : Pending
  requestId : String
  complete : Bool
  batch : List Metric
  deriving DecidableEq

/-- The per-metric loop of `Exporter.ConsumeMetrics` (lines 83-99 of
`exporter/magicexporter/receiver.go`): for each metric in the slice,
build a `Metric` from its name and first sum data point — panicking
when there is none — look the request identifier up in `pending`,
initialise an empty entry when absent, and store the entry with the
fragment appended. -/
def consumeLoop : Pending → String → List PMetricData → Except PanicKind Pending
  | p, _, [] => .ok p
  | p, rid, m :: ms =>
    match m.sumDataPoints.head? with
    | none => .error .dpIndex
    | some v =>
      consumeLoop (ainsert p rid ((alookup p rid).getD [] ++ [⟨m.name, v⟩])) rid ms

/-- Shallow embedding of `Exporter.ConsumeMetrics`
(`exporter/magicexporter/receiver.go`, lines 73-118), made total by
returning the panic the Go code would hit. It reads `RequestId` and
`Len` from the first resource metrics, appends every metric of the
first scope metrics to the entry for the request identifier, and when
the accumulated length equals `Len` it emits the accumulated batch and
deletes the entry. -/
def ConsumeMetrics (p : Pending) (pm : PMetrics) :
    Except PanicKind SubmitResult :=
  match pm.resourceMetrics.head? with
  | none => .error .rmIndex
  | some rm =>
    let requestId := attrStr rm.attributes keyRequestId
    let length := attrInt rm.attributes keyLen
    match rm.scopeMetrics.head? with
    | none => .error .smIndex
    | some sm =>
      match consumeLoop p requestId sm.metrics with
      | .error e => .error e
      | .ok p1 =>
        if (((alookup p1 requestId).getD []).length : Int) = length then
          .ok ⟨aremove p1 requestId, requestId, true, (alookup p1 requestId).getD []⟩
        else
          .ok ⟨p1, requestId, false, []⟩

/-- The message carrying a single fragment for a request identifier and
declared count, shaped exactly as `setupRouter` in
`receiver/magicreceiver/receiver.go` builds it for a one-metric body:
one resource metrics with `Len` and `RequestId` attributes and one
scope metrics holding one sum metric with one data point. -/
def mkMsg (rid : String) (len : Int) (frag : Metric) : PMetrics :=
  ⟨[⟨[(keyLen, .int len), (keyRequestId, .str rid)],
     [⟨[⟨frag.name, [frag.value]⟩]⟩]⟩]⟩

/-- The specification's `submit(requestId, expectedCount, fragment)`
operation: `Exporter.ConsumeMetrics` applied to a single-fragment
message (which never panics). -/
def submit (p : Pending) (rid : String) (len : Int) (frag : Metric) :
    SubmitResult :=
  match ConsumeMetrics p (mkMsg rid len frag) with
  | .ok r => r
  | .error _ => ⟨p, rid, false, []⟩

/-- A submit call as the aggregation buffer sees it: one fragment tagged
with a request identifier and the declared expected count. -/
structure Call where
  rid : String
  len : Int
  frag : Metric
  deriving DecidableEq

/-- Sequential execution of a list of submit calls against the shared
`pending` store, collecting every emitted completion event (request
identifier together with the batch printed for it). -/
def runSubmits : Pending → List Call → Pending × List (String × List Metric)
  | p, [] => (p, [])
  | p, c :: cs =>
    let r := submit p c.rid c.len c.frag
    let rest := runSubmits r.pending cs
    (rest.1, (if r.complete then [(r.requestId, r.batch)] else []) ++ rest.2)

/-- The request identifier a message carries: the `RequestId` attribute
of its first resource metrics. -/
def msgRid (pm : PMetrics) : String :=
  match pm.resourceMetrics.head? with
  | some rm => attrStr rm.attributes keyRequestId
  | none => ""

/-- The expected count a message carries: the `Len` attribute of its
first resource metrics. -/
def msgLen (pm : PMetrics) : Int :=
  match pm.resourceMetrics.head? with
  | some rm => attrInt rm.attributes keyLen
  | none => 0

/-- A message on which `Exporter.ConsumeMetrics` does not panic: it has
a first resource metrics, that one has a first scope metrics, and every
metric in it has at least one sum data point. -/
def wfMsg (pm : PMetrics) : Bool :=
  match pm.resourceMetrics.head? with
  | none => false
  | some rm =>
    match rm.scopeMetrics.head? with
    | none => false
    | some sm => sm.metrics.all (fun m => !m.sumDataPoints.isEmpty)

/-- Sequential execution of a list of inbound messages against the
shared `pending` store via `Exporter.ConsumeMetrics`, collecting every
emitted completion event. -/
def runConsume : Pending → List PMetrics → Pending × List (String × List Metric)
  | p, [] => (p, [])
  | p, pm :: pms =>
    match ConsumeMetrics p pm with
    | .error _ => runConsume p pms
    | .ok res =>
      let rest := runConsume res.pending pms
      (rest.1, (if res.complete then [(res.requestId, res.batch)] else []) ++ rest.2)

/-- The guard for the two collection-indexing operations at the top of
`Exporter.ConsumeMetrics`: the message has a first resource metrics and
that one has a first scope metrics. -/
def hasIndexHeader (pm : PMetrics) : Bool :=
  match pm.resourceMetrics.head? with
  | none => false
  | some rm => !rm.scopeMetrics.isEmpty

/-- The number of fragments a message appends: the length of the
metric slice of the first scope metrics of the first resource
metrics. -/
def msgFragCount (pm : PMetrics) : Nat :=
  match pm.resourceMetrics.head? with
  | none => 0
  | some rm =>
    match rm.scopeMetrics.head? with
    | none => 0
    | some sm => sm.metrics.length

/-- One metric object of the inbound JSON body (`Name`, `Value`). -/
structure MetricJson where
  Name : String
  Value : Int
  deriving DecidableEq

/-- The inbound JSON body of a `PUT /metric` request (`Metrics`,
`RequestId`), after a successful bind. -/
structure PutBody where
  Metrics : List MetricJson
  RequestId : String
  deriving DecidableEq

/-- How the handler registered by `setupRouter` converts a bound body
into a `pmetric.Metrics` value (`receiver/magicreceiver/receiver.go`,
lines 102-115): one resource metrics holding one scope metrics with one
sum metric and one data point per body entry, plus `Len` and
`RequestId` resource attributes. -/
def buildMetrics (b : PutBody) : PMetrics :=
  ⟨[⟨[(keyLen, .int (b.Metrics.length : Int)), (keyRequestId, .str b.RequestId)],
     [⟨b.Metrics.map (fun m => ⟨m.Name, [m.Value]⟩)⟩]⟩]⟩

/-- A JSON response written by the handler: HTTP status code and the
value of its `status` field. -/
structure GinResponse where
  code : Nat
  status : String
  deriving DecidableEq

/-- The `PUT /metric` handler of `setupRouter`
(`receiver/magicreceiver/receiver.go`, lines 87-127): when the body
binds, it forwards the converted metrics to the next consumer and
responds 500 `fail` when the consumer returned an error and 200 `ok`
otherwise; when the bind fails the handler writes no response of its
own. -/
def handleMetricPut (next : PMetrics → Option String) (body : Option PutBody) :
    Option GinResponse :=
  match body with
  | none => none
  | some b =>
    match next (buildMetrics b) with
    | some _ => some ⟨500, "fail"⟩
    | none => some ⟨200, "ok"⟩

theorem alookup_ainsert_self (p : Pending) (k : String) (v : List Metric) :
    alookup (ainsert p k v) k = some v := by
  induction p with
  | nil => simp [ainsert, alookup]
  | cons hd tl ih =>
    obtain ⟨k', w⟩ := hd
    by_cases h : k' = k
    · simp [ainsert, h, alookup]
    · simp [ainsert, h, alookup, ih]

theorem alookup_ainsert_ne (p : Pending) (k r : String) (v : List Metric)
    (h : r ≠ k) : alookup (ainsert p k v) r = alookup p r := by
  have hkr : ¬ k = r := fun hh => h hh.symm
  induction p with
  | nil => simp [ainsert, alookup, hkr]
  | cons hd tl ih =>
    obtain ⟨k', w⟩ := hd
    by_cases hk : k' = k
    · simp [ainsert, hk, alookup, hkr]
    · simp [ainsert, hk, alookup, ih]

theorem alookup_aremove_self (p : Pending) (k : String) :
    alookup (aremove p k) k = none := by
  induction p with
  | nil => rfl
  | cons hd tl ih =>
    obtain ⟨k', w⟩ := hd
    by_cases h : k' = k
    · simpa [aremove, h] using ih
    · simp [aremove, h, alookup, ih]

theorem alookup_aremove_ne (p : Pending) (k r : String) (h : r ≠ k) :
    alookup (aremove p k) r = alookup p r := by
  have hkr : ¬ k = r := fun hh => h hh.symm
  induction p with
  | nil => rfl
  | cons hd tl ih =>
    obtain ⟨k', w⟩ := hd
    by_cases hk : k' = k
    · simp [aremove, hk, alookup, hkr, ih]
    · by_cases hr : k' = r
      · simp [aremove, hk, alookup, hr, h]
      · simp [aremove, hk, alookup, hr, ih]

theorem consume_mkMsg (p : Pending) (rid : String) (len : Int) (frag : Metric) :
    ConsumeMetrics p (mkMsg rid len frag) =
      (if ((((alookup p rid).getD []).length + 1 : Nat) : Int) = len then
        .ok ⟨aremove (ainsert p rid ((alookup p rid).getD [] ++ [frag])) rid,
          rid, true, (alookup p rid).getD [] ++ [frag]⟩
      else
        .ok ⟨ainsert p rid ((alookup p rid).getD [] ++ [frag]), rid, false, []⟩) := by
  have hrid : attrStr [(keyLen, .int len), (keyRequestId, .str rid)] keyRequestId = rid := rfl
  have hlen : attrInt [(keyLen, .int len), (keyRequestId, .str rid)] keyLen = len := rfl
  have hfrag : (⟨frag.name, frag.value⟩ : Metric) = frag := rfl
  have hacc : alookup (ainsert p rid ((alookup p rid).getD [] ++ [frag])) rid
      = some ((alookup p rid).getD [] ++ [frag]) := alookup_ainsert_self ..
  simp only [ConsumeMetrics, mkMsg, List.head?_cons, hrid, hlen, consumeLoop,
    hfrag, hacc, Option.getD_some]
  simp [List.length_append]

theorem submit_eq (p : Pending) (rid : String) (len : Int) (frag : Metric) :
    submit p rid len frag =
      (if ((((alookup p rid).getD []).length + 1 : Nat) : Int) = len then
        ⟨aremove (ainsert p rid ((alookup p rid).getD [] ++ [frag])) rid,
         rid, true, (alookup p rid).getD [] ++ [frag]⟩
      else
        ⟨ainsert p rid ((alookup p rid).getD [] ++ [frag]), rid, false, []⟩) := by
  simp only [submit, consume_mkMsg]
  by_cases h : ((((alookup p rid).getD []).length + 1 : Nat) : Int) = len
  · rw [if_pos h, if_pos h]
  · rw [if_neg h, if_neg h]

theorem submit_requestId (p : Pending) (rid : String) (len : Int) (frag : Metric) :
    (submit p rid len frag).requestId = rid := by
  rw [submit_eq]
  split <;> rfl

theorem submit_complete_iff (p : Pending) (rid : String) (len : Int) (frag : Metric) :
    (submit p rid len frag).complete = true ↔
      ((((alookup p rid).getD []).length + 1 : Nat) : Int) = len := by
  rw [submit_eq]
  split
  case isTrue h => simpa using h
  case isFalse h => simpa using h

theorem submit_batch_of_complete (p : Pending) (rid : String) (len : Int) (frag : Metric)
    (h : (submit p rid len frag).complete = true) :
    (submit p rid len frag).batch = (alookup p rid).getD [] ++ [frag] := by
  rw [submit_eq] at h ⊢
  split at h
  case isTrue hc => rw [if_pos hc]
  case isFalse hc => simp at h

theorem submit_lookup (p : Pending) (rid : String) (len : Int) (frag : Metric) (r : String) :
    alookup (submit p rid len frag).pending r =
      (if rid = r then
        (if ((((alookup p rid).getD []).length + 1 : Nat) : Int) = len then none
         else some ((alookup p rid).getD [] ++ [frag]))
      else alookup p r) := by
  rw [submit_eq]
  by_cases hc : ((((alookup p rid).getD []).length + 1 : Nat) : Int) = len
  · rw [if_pos hc, if_pos hc]
    by_cases hr : rid = r
    · subst hr
      simp [alookup_aremove_self]
    · have hr' : r ≠ rid := fun hh => hr hh.symm
      simp [hr, alookup_aremove_ne _ _ _ hr', alookup_ainsert_ne _ _ _ _ hr']
  · rw [if_neg hc, if_neg hc]
    by_cases hr : rid = r
    · subst hr
      simp [alookup_ainsert_self]
    · have hr' : r ≠ rid := fun hh => hr hh.symm
      simp [hr, alookup_ainsert_ne _ _ _ _ hr']

theorem run_frame (tr : List Call) (p : Pending) (r : String)
    (h : ∀ c ∈ tr, c.rid ≠ r) :
    (runSubmits p tr).2.filter (fun e => e.1 == r) = [] ∧
    alookup (runSubmits p tr).1 r = alookup p r := by
  induction tr generalizing p with
  | nil => exact ⟨rfl, rfl⟩
  | cons c cs ih =>
    have hc : c.rid ≠ r := h c (List.mem_cons_self c cs)
    have hlook : alookup (submit p c.rid c.len c.frag).pending r = alookup p r := by
      rw [submit_lookup]
      simp [hc]
    have ih' := ih (submit p c.rid c.len c.frag).pending
      (fun c' hc' => h c' (List.mem_cons_of_mem c hc'))
    have hev : (((if (submit p c.rid c.len c.frag).complete then
        [((submit p c.rid c.len c.frag).requestId, (submit p c.rid c.len c.frag).batch)]
        else []) : List (String × List Metric)).filter (fun e => e.1 == r)) = [] := by
      split
      · simp [submit_requestId, hc]
      · rfl
    refine ⟨?_, ?_⟩
    · simp only [runSubmits, List.filter_append, hev, ih'.1, List.nil_append]
    · simp only [runSubmits, ih'.2, hlook]

theorem run_complete_inv (tr : List Call) (p : Pending) (r : String)
    (g fs : List Metric) (hfs : fs ≠ [])
    (hg : (alookup p r).getD [] = g)
    (hfrag : (tr.filter (fun c => c.rid == r)).map Call.frag = fs)
    (hlen : ∀ c ∈ tr, c.rid = r → c.len = ((g.length + fs.length : Nat) : Int)) :
    (runSubmits p tr).2.filter (fun e => e.1 == r) = [(r, g ++ fs)] ∧
    alookup (runSubmits p tr).1 r = none := by
  induction tr generalizing p g fs with
  | nil =>
    exfalso
    apply hfs
    simpa using hfrag.symm
  | cons c cs ih =>
    by_cases hc : c.rid = r
    · have hfilter : (c :: cs).filter (fun c => c.rid == r)
          = c :: cs.filter (fun c => c.rid == r) := by
        simp [List.filter_cons, hc]
      rw [hfilter, List.map_cons] at hfrag
      have hfseq : fs = c.frag :: (cs.filter (fun c => c.rid == r)).map Call.frag :=
        hfrag.symm
      have hclen : c.len = ((g.length + fs.length : Nat) : Int) :=
        hlen c (List.mem_cons_self c cs) hc
      by_cases h2 : (cs.filter (fun c => c.rid == r)).map Call.frag = []
      · -- the head call carries the count-matching fragment
        have hfseq' : fs = [c.frag] := by rw [hfseq, h2]
        have hcond : ((((alookup p c.rid).getD []).length + 1 : Nat) : Int) = c.len := by
          rw [hc, hg, hclen, hfseq']
          rfl
        have hcomplete : (submit p c.rid c.len c.frag).complete = true :=
          (submit_complete_iff p c.rid c.len c.frag).mpr hcond
        have hbatch : (submit p c.rid c.len c.frag).batch = g ++ [c.frag] := by
          rw [submit_batch_of_complete p c.rid c.len c.frag hcomplete, hc, hg]
        have hlook : alookup (submit p c.rid c.len c.frag).pending r = none := by
          rw [submit_lookup, if_pos hc, if_pos hcond]
        have hnone : ∀ c' ∈ cs, c'.rid ≠ r := by
          intro c' hm heq
          have hfields : cs.filter (fun c => c.rid == r) = [] :=
            List.map_eq_nil_iff.mp h2
          have := List.filter_eq_nil_iff.mp hfields c' hm
          simp [heq] at this
        have hframe := run_frame cs (submit p c.rid c.len c.frag).pending r hnone
        refine ⟨?_, ?_⟩
        · simp only [runSubmits, List.filter_append, hframe.1, List.append_nil]
          rw [if_pos hcomplete, submit_requestId, hbatch, hfseq']
          simp [hc]
        · simp only [runSubmits]
          rw [hframe.2, hlook]
      · -- a strictly earlier fragment of the request: no completion yet
        have hposlen : fs.length
            = ((cs.filter (fun c => c.rid == r)).map Call.frag).length + 1 := by
          rw [hfseq]
          simp
        have hcond : ¬ ((((alookup p c.rid).getD []).length + 1 : Nat) : Int) = c.len := by
          rw [hc, hg, hclen, hposlen]
          intro hh
          have hlen2 : ((cs.filter (fun c => c.rid == r)).map Call.frag).length = 0 := by
            push_cast at hh
            omega
          exact h2 (List.length_eq_zero.mp hlen2)
        have hcompletef : ¬ (submit p c.rid c.len c.frag).complete = true :=
          fun hh => hcond ((submit_complete_iff p c.rid c.len c.frag).mp hh)
        have hlook2 : alookup (submit p c.rid c.len c.frag).pending r
            = some (g ++ [c.frag]) := by
          rw [submit_lookup, if_pos hc, if_neg hcond, hc, hg]
        have hlen' : ∀ c' ∈ cs, c'.rid = r →
            c'.len = (((g ++ [c.frag]).length
              + ((cs.filter (fun c => c.rid == r)).map Call.frag).length : Nat) : Int) := by
          intro c' hm heq
          rw [hlen c' (List.mem_cons_of_mem c hm) heq, hposlen]
          push_cast [List.length_append, List.length_singleton]
          ring
        have ih' := ih (submit p c.rid c.len c.frag).pending (g ++ [c.frag])
          ((cs.filter (fun c => c.rid == r)).map Call.frag) h2
          (by rw [hlook2]; rfl) rfl hlen'
        refine ⟨?_, ?_⟩
        · simp only [runSubmits]
          rw [if_neg hcompletef, List.nil_append, ih'.1, hfseq, List.append_assoc,
            List.singleton_append]
        · simp only [runSubmits]
          exact ih'.2
    · -- the head call is for a different request identifier
      have hfilter : (c :: cs).filter (fun c => c.rid == r)
          = cs.filter (fun c => c.rid == r) := by
        simp [List.filter_cons, hc]
      rw [hfilter] at hfrag
      have hlook : alookup (submit p c.rid c.len c.frag).pending r = alookup p r := by
        rw [submit_lookup]
        simp [hc]
      have hev : (((if (submit p c.rid c.len c.frag).complete then
          [((submit p c.rid c.len c.frag).requestId, (submit p c.rid c.len c.frag).batch)]
          else []) : List (String × List Metric)).filter (fun e => e.1 == r)) = [] := by
        split
        · simp [submit_requestId, hc]
        · rfl
      have ih' := ih (submit p c.rid c.len c.frag).pending g fs hfs
        (by rw [hlook]; exact hg) hfrag
        (fun c' hm heq => hlen c' (List.mem_cons_of_mem c hm) heq)
      refine ⟨?_, ?_⟩
      · simp only [runSubmits, List.filter_append, hev, ih'.1, List.nil_append]
      · simp only [runSubmits]
        exact ih'.2

theorem run_incomplete_inv (tr : List Call) (p : Pending) (r : String)
    (g : List Metric) (k : Int)
    (hg : (alookup p r).getD [] = g)
    (hsome : g ≠ [] → (alookup p r).isSome = true)
    (hlt : ((g.length + (tr.filter (fun c => c.rid == r)).length : Nat) : Int) < k)
    (hlen : ∀ c ∈ tr, c.rid = r → c.len = k) :
    (runSubmits p tr).2.filter (fun e => e.1 == r) = [] ∧
    (alookup (runSubmits p tr).1 r).getD []
      = g ++ (tr.filter (fun c => c.rid == r)).map Call.frag ∧
    ((g ++ (tr.filter (fun c => c.rid == r)).map Call.frag) ≠ [] →
      (alookup (runSubmits p tr).1 r).isSome = true) := by
  induction tr generalizing p g with
  | nil =>
    refine ⟨rfl, by simpa using hg, ?_⟩
    intro hne
    exact hsome (by simpa using hne)
  | cons c cs ih =>
    by_cases hc : c.rid = r
    · have hfilter : (c :: cs).filter (fun c => c.rid == r)
          = c :: cs.filter (fun c => c.rid == r) := by
        simp [List.filter_cons, hc]
      rw [hfilter] at hlt
      simp only [List.length_cons] at hlt
      have hclen : c.len = k := hlen c (List.mem_cons_self c cs) hc
      have hcond : ¬ ((((alookup p c.rid).getD []).length + 1 : Nat) : Int) = c.len := by
        rw [hc, hg, hclen]
        intro hh
        omega
      have hcompletef : ¬ (submit p c.rid c.len c.frag).complete = true :=
        fun hh => hcond ((submit_complete_iff p c.rid c.len c.frag).mp hh)
      have hlook2 : alookup (submit p c.rid c.len c.frag).pending r
          = some (g ++ [c.frag]) := by
        rw [submit_lookup, if_pos hc, if_neg hcond, hc, hg]
      have hlt' : (((g ++ [c.frag]).length
          + (cs.filter (fun c => c.rid == r)).length : Nat) : Int) < k := by
        simp only [List.length_append, List.length_singleton]
        omega
      have ih' := ih (submit p c.rid c.len c.frag).pending (g ++ [c.frag])
        (by rw [hlook2]; rfl) (fun _ => by rw [hlook2]; rfl) hlt'
        (fun c' hm heq => hlen c' (List.mem_cons_of_mem c hm) heq)
      refine ⟨?_, ?_, ?_⟩
      · simp only [runSubmits]
        rw [if_neg hcompletef, List.nil_append, ih'.1]
      · simp only [runSubmits]
        rw [ih'.2.1, hfilter, List.map_cons, List.append_assoc, List.singleton_append]
      · simp only [runSubmits]
        intro _
        apply ih'.2.2
        simp
    · have hfilter : (c :: cs).filter (fun c => c.rid == r)
          = cs.filter (fun c => c.rid == r) := by
        simp [List.filter_cons, hc]
      rw [hfilter] at hlt
      have hlook : alookup (submit p c.rid c.len c.frag).pending r = alookup p r := by
        rw [submit_lookup]
        simp [hc]
      have hev : (((if (submit p c.rid c.len c.frag).complete then
          [((submit p c.rid c.len c.frag).requestId, (submit p c.rid c.len c.frag).batch)]
          else []) : List (String × List Metric)).filter (fun e => e.1 == r)) = [] := by
        split
        · simp [submit_requestId, hc]
        · rfl
      have ih' := ih (submit p c.rid c.len c.frag).pending g
        (by rw [hlook]; exact hg) (fun hne => by rw [hlook]; exact hsome hne) hlt
        (fun c' hm heq => hlen c' (List.mem_cons_of_mem c hm) heq)
      refine ⟨?_, ?_, ?_⟩
      · simp only [runSubmits, List.filter_append, hev, ih'.1, List.nil_append]
      · simp only [runSubmits]
        rw [hfilter]
        exact ih'.2.1
      · simp only [runSubmits]
        intro hne
        apply ih'.2.2
        rw [hfilter] at hne
        exact hne

theorem run_batch_mem (tr : List Call) (p : Pending) (r : String) (b : List Metric)
    (m : Metric) (hev : (r, b) ∈ (runSubmits p tr).2) (hm : m ∈ b) :
    (∃ l, alookup p r = some l ∧ m ∈ l) ∨ ∃ c ∈ tr, c.rid = r ∧ c.frag = m := by
  induction tr generalizing p with
  | nil => simp [runSubmits] at hev
  | cons c cs ih =>
    simp only [runSubmits] at hev
    rw [List.mem_append] at hev
    cases hev with
    | inl h1 =>
      by_cases hcom : (submit p c.rid c.len c.frag).complete = true
      · rw [if_pos hcom, List.mem_singleton] at h1
        have hr : r = (submit p c.rid c.len c.frag).requestId := congrArg Prod.fst h1
        have hb : b = (submit p c.rid c.len c.frag).batch := congrArg Prod.snd h1
        rw [submit_requestId] at hr
        rw [submit_batch_of_complete p c.rid c.len c.frag hcom] at hb
        rw [hb, List.mem_append] at hm
        cases hm with
        | inl hmo =>
          cases halo : alookup p c.rid with
          | none => rw [halo] at hmo; simp at hmo
          | some l =>
            rw [halo] at hmo
            exact Or.inl ⟨l, by rw [hr]; exact halo, hmo⟩
        | inr hmf =>
          rw [List.mem_singleton] at hmf
          exact Or.inr ⟨c, List.mem_cons_self c cs, hr.symm, hmf.symm⟩
      · rw [if_neg hcom] at h1
        simp at h1
    | inr h2 =>
      rcases ih (submit p c.rid c.len c.frag).pending h2 with ⟨l, hl, hml⟩ | ⟨c', hc', heq, hfr⟩
      · rw [submit_lookup] at hl
        by_cases hcr : c.rid = r
        · rw [if_pos hcr] at hl
          by_cases hcond : ((((alookup p c.rid).getD []).length + 1 : Nat) : Int) = c.len
          · rw [if_pos hcond] at hl
            exact absurd hl (by simp)
          · rw [if_neg hcond] at hl
            have hleq : l = (alookup p c.rid).getD [] ++ [c.frag] := by
              injection hl.symm
            rw [hleq, List.mem_append] at hml
            cases hml with
            | inl hmo =>
              cases halo : alookup p c.rid with
              | none => rw [halo] at hmo; simp at hmo
              | some l' =>
                rw [halo] at hmo
                exact Or.inl ⟨l', by rw [← hcr]; exact halo, hmo⟩
            | inr hmf =>
              rw [List.mem_singleton] at hmf
              exact Or.inr ⟨c, List.mem_cons_self c cs, hcr, hmf.symm⟩
        · rw [if_neg hcr] at hl
          exact Or.inl ⟨l, hl, hml⟩
      · exact Or.inr ⟨c', List.mem_cons_of_mem c hc', heq, hfr⟩

theorem run_remove_only_complete (tr : List Call) (p : Pending) (r : String)
    (h : alookup (runSubmits p tr).1 r = none) :
    alookup p r = none ∨ ∃ b, (r, b) ∈ (runSubmits p tr).2 := by
  induction tr generalizing p with
  | nil => exact Or.inl h
  | cons c cs ih =>
    simp only [runSubmits] at h ⊢
    rcases ih (submit p c.rid c.len c.frag).pending h with h1 | ⟨b, hb⟩
    · rw [submit_lookup] at h1
      by_cases hcr : c.rid = r
      · rw [if_pos hcr] at h1
        by_cases hcond : ((((alookup p c.rid).getD []).length + 1 : Nat) : Int) = c.len
        · right
          have hcom : (submit p c.rid c.len c.frag).complete = true :=
            (submit_complete_iff p c.rid c.len c.frag).mpr hcond
          refine ⟨(submit p c.rid c.len c.frag).batch, ?_⟩
          rw [if_pos hcom]
          apply List.mem_append_left
          rw [submit_requestId, hcr]
          exact List.mem_singleton.mpr rfl
        · rw [if_neg hcond] at h1
          exact absurd h1 (by simp)
      · rw [if_neg hcr] at h1
        exact Or.inl h1
    · exact Or.inr ⟨b, List.mem_append_right _ hb⟩

theorem consumeLoop_error_dp (ms : List PMetricData) (p : Pending) (rid : String)
    (e : PanicKind) (h : consumeLoop p rid ms = .error e) : e = .dpIndex := by
  induction ms generalizing p with
  | nil => simp [consumeLoop] at h
  | cons m ms ih =>
    simp only [consumeLoop] at h
    cases hd : m.sumDataPoints.head? with
    | none =>
      rw [hd] at h
      injection h with h'
      exact h'.symm
    | some v =>
      rw [hd] at h
      exact ih _ h

theorem consumeLoop_ok (ms : List PMetricData) (p : Pending) (rid : String)
    (h : ∀ m ∈ ms, m.sumDataPoints ≠ []) :
    ∃ p1, consumeLoop p rid ms = .ok p1 := by
  induction ms generalizing p with
  | nil => exact ⟨p, rfl⟩
  | cons m ms ih =>
    cases hd : m.sumDataPoints with
    | nil => exact absurd hd (h m (List.mem_cons_self m ms))
    | cons v vs =>
      have hd' : m.sumDataPoints.head? = some v := by rw [hd]; rfl
      obtain ⟨p1, hp1⟩ :=
        ih (ainsert p rid ((alookup p rid).getD [] ++ [⟨m.name, v⟩]))
          (fun m' hm' => h m' (List.mem_cons_of_mem m hm'))
      refine ⟨p1, ?_⟩
      simp only [consumeLoop, hd']
      exact hp1

theorem consumeLoop_lookup_ne (ms : List PMetricData) (p p1 : Pending)
    (rid r : String) (hne : r ≠ rid) (h : consumeLoop p rid ms = .ok p1) :
    alookup p1 r = alookup p r := by
  induction ms generalizing p with
  | nil =>
    injection h with h'
    rw [← h']
  | cons m ms ih =>
    simp only [consumeLoop] at h
    cases hd : m.sumDataPoints.head? with
    | none =>
      rw [hd] at h
      exact absurd h (by simp)
    | some v =>
      rw [hd] at h
      rw [ih _ h, alookup_ainsert_ne _ _ _ _ hne]

theorem consumeLoop_lookup_self (ms : List PMetricData) (p p1 : Pending)
    (rid : String) (l : List Metric) (hl : alookup p rid = some l)
    (h : consumeLoop p rid ms = .ok p1) :
    ∃ tail, alookup p1 rid = some (l ++ tail) := by
  induction ms generalizing p l with
  | nil =>
    injection h with h'
    exact ⟨[], by rw [← h', hl, List.append_nil]⟩
  | cons m ms ih =>
    simp only [consumeLoop] at h
    cases hd : m.sumDataPoints.head? with
    | none =>
      rw [hd] at h
      exact absurd h (by simp)
    | some v =>
      rw [hd] at h
      have hl' : alookup (ainsert p rid ((alookup p rid).getD [] ++ [⟨m.name, v⟩])) rid
          = some (l ++ [⟨m.name, v⟩]) := by
        rw [alookup_ainsert_self, hl, Option.getD_some]
      obtain ⟨tail, htail⟩ := ih _ _ hl' h
      exact ⟨[⟨m.name, v⟩] ++ tail, by rw [htail, List.append_assoc]⟩

theorem wfMsg_spec (pm : PMetrics) (h : wfMsg pm = true) :
    ∃ rm sm, pm.resourceMetrics.head? = some rm ∧ rm.scopeMetrics.head? = some sm ∧
      ∀ m ∈ sm.metrics, m.sumDataPoints ≠ [] := by
  unfold wfMsg at h
  cases hrm : pm.resourceMetrics.head? with
  | none =>
    rw [hrm] at h
    exact absurd h (by simp)
  | some rm =>
    rw [hrm] at h
    have h2 : (match rm.scopeMetrics.head? with
        | none => false
        | some sm => sm.metrics.all fun m => !m.sumDataPoints.isEmpty) = true := h
    cases hsm : rm.scopeMetrics.head? with
    | none =>
      rw [hsm] at h2
      exact absurd h2 (by simp)
    | some sm =>
      rw [hsm] at h2
      have h3 : sm.metrics.all (fun m => !m.sumDataPoints.isEmpty) = true := h2
      refine ⟨rm, sm, rfl, hsm, ?_⟩
      intro m hm hnil
      have := List.all_eq_true.mp h3 m hm
      rw [hnil] at this
      simp at this

theorem ConsumeMetrics_ok_spec (p : Pending) (pm : PMetrics)
    (rm : ResourceMetricsData) (sm : ScopeMetricsData)
    (hrm : pm.resourceMetrics.head? = some rm)
    (hsm : rm.scopeMetrics.head? = some sm) (p1 : Pending)
    (hloop : consumeLoop p (attrStr rm.attributes keyRequestId) sm.metrics = .ok p1) :
    ConsumeMetrics p pm =
      (if (((alookup p1 (attrStr rm.attributes keyRequestId)).getD []).length : Int)
          = attrInt rm.attributes keyLen then
        .ok ⟨aremove p1 (attrStr rm.attributes keyRequestId),
          attrStr rm.attributes keyRequestId, true,
          (alookup p1 (attrStr rm.attributes keyRequestId)).getD []⟩
      else
        .ok ⟨p1, attrStr rm.attributes keyRequestId, false, []⟩) := by
  simp only [ConsumeMetrics, hrm, hsm, hloop]

theorem consumeLoop_length (ms : List PMetricData) (p p1 : Pending) (rid : String)
    (h : consumeLoop p rid ms = .ok p1) :
    ((alookup p1 rid).getD []).length = ((alookup p rid).getD []).length + ms.length := by
  induction ms generalizing p with
  | nil =>
    injection h with h'
    rw [← h']
    rfl
  | cons m ms ih =>
    simp only [consumeLoop] at h
    cases hd : m.sumDataPoints.head? with
    | none =>
      rw [hd] at h
      exact absurd h (by simp)
    | some v =>
      rw [hd] at h
      have := ih _ h
      rw [this, alookup_ainsert_self, Option.getD_some, List.length_append]
      simp [List.length_cons]
      omega

theorem run_overshoot_inv (tr : List PMetrics) (p : Pending) (r : String)
    (k : Int) (l : List Metric)
    (hl : alookup p r = some l) (hk : k < (l.length : Int))
    (hwf : ∀ pm ∈ tr, wfMsg pm = true)
    (hrk : ∀ pm ∈ tr, msgRid pm = r → msgLen pm = k) :
    (runConsume p tr).2.filter (fun e => e.1 == r) = [] ∧
    ∃ l', alookup (runConsume p tr).1 r = some l' ∧ k < (l'.length : Int) := by
  induction tr generalizing p l with
  | nil => exact ⟨rfl, l, hl, hk⟩
  | cons pm pms ih =>
    obtain ⟨rm, sm, hrm, hsm, hdp⟩ := wfMsg_spec pm (hwf pm (List.mem_cons_self pm pms))
    obtain ⟨p1, hp1⟩ := consumeLoop_ok sm.metrics p (attrStr rm.attributes keyRequestId) hdp
    have hcm := ConsumeMetrics_ok_spec p pm rm sm hrm hsm p1 hp1
    have hmsgr : msgRid pm = attrStr rm.attributes keyRequestId := by
      simp only [msgRid, hrm]
    have hmsgl : msgLen pm = attrInt rm.attributes keyLen := by
      simp only [msgLen, hrm]
    have hwf' : ∀ m ∈ pms, wfMsg m = true :=
      fun m hm => hwf m (List.mem_cons_of_mem pm hm)
    have hrk' : ∀ m ∈ pms, msgRid m = r → msgLen m = k :=
      fun m hm => hrk m (List.mem_cons_of_mem pm hm)
    by_cases hcr : attrStr rm.attributes keyRequestId = r
    · -- a message for the watched request identifier: cannot complete
      have hkk : attrInt rm.attributes keyLen = k := by
        rw [← hmsgl]
        exact hrk pm (List.mem_cons_self pm pms) (by rw [hmsgr, hcr])
      obtain ⟨tail, htail⟩ := consumeLoop_lookup_self sm.metrics p p1
        (attrStr rm.attributes keyRequestId) l (by rw [hcr]; exact hl) hp1
      have hlen1 : k < ((l ++ tail).length : Int) := by
        simp only [List.length_append]
        push_cast
        omega
      have hcond :
          ¬ ((((alookup p1 (attrStr rm.attributes keyRequestId)).getD []).length : Int)
            = attrInt rm.attributes keyLen) := by
        rw [htail, Option.getD_some, hkk]
        intro hh
        omega
      have ih' := ih p1 (l ++ tail) (by rw [← hcr]; exact htail) hlen1 hwf' hrk'
      refine ⟨?_, ?_⟩
      · simp only [runConsume, hcm, if_neg hcond]
        simpa using ih'.1
      · simp only [runConsume, hcm, if_neg hcond]
        exact ih'.2
    · -- a message for a different request identifier
      have hne : r ≠ attrStr rm.attributes keyRequestId := fun hh => hcr hh.symm
      have hp1r : alookup p1 r = alookup p r :=
        consumeLoop_lookup_ne sm.metrics p p1 (attrStr rm.attributes keyRequestId) r hne hp1
      by_cases hcond :
          (((alookup p1 (attrStr rm.attributes keyRequestId)).getD []).length : Int)
            = attrInt rm.attributes keyLen
      · have hrem : alookup (aremove p1 (attrStr rm.attributes keyRequestId)) r
            = alookup p1 r := alookup_aremove_ne _ _ _ hne
        have ih' := ih (aremove p1 (attrStr rm.attributes keyRequestId)) l
          (by rw [hrem, hp1r]; exact hl) hk hwf' hrk'
        refine ⟨?_, ?_⟩
        · simp only [runConsume, hcm, if_pos hcond]
          simp only [List.filter_append, ih'.1, List.append_nil]
          simp [hcr]
        · simp only [runConsume, hcm, if_pos hcond]
          exact ih'.2
      · have ih' := ih p1 l (by rw [hp1r]; exact hl) hk hwf' hrk'
        refine ⟨?_, ?_⟩
        · simp only [runConsume, hcm, if_neg hcond]
          simpa using ih'.1
        · simp only [runConsume, hcm, if_neg hcond]
          exact ih'.2

/-- C1: for every call of the aggregation buffer submit operation
(`Exporter.ConsumeMetrics` on a single-fragment message) with a
non-empty request identifier and positive expected count, the fragment
is appended to the entry for that identifier (the entry being created
if absent), and the result is `complete = true` with `batch` equal to
the full accumulated fragment sequence and the entry removed from the
store exactly when the accumulated count reaches the expected count
after this append; otherwise the result is `complete = false` and the
entry remains. -/
theorem claim_C1 (p : Pending) (rid : String) (n : Int) (frag : Metric)
    (h1 : rid ≠ "") (h2 : 0 < n) :
    (((((alookup p rid).getD []).length + 1 : Nat) : Int) = n →
      (submit p rid n frag).complete = true ∧
      (submit p rid n frag).batch = (alookup p rid).getD [] ++ [frag] ∧
      alookup (submit p rid n frag).pending rid = none) ∧
    (¬ ((((alookup p rid).getD []).length + 1 : Nat) : Int) = n →
      (submit p rid n frag).complete = false ∧
      alookup (submit p rid n frag).pending rid
        = some ((alookup p rid).getD [] ++ [frag])) := by
  constructor
  · intro hc
    have hcom : (submit p rid n frag).complete = true :=
      (submit_complete_iff p rid n frag).mpr hc
    refine ⟨hcom, submit_batch_of_complete p rid n frag hcom, ?_⟩
    rw [submit_lookup, if_pos rfl, if_pos hc]
  · intro hc
    constructor
    · cases hb : (submit p rid n frag).complete
      · rfl
      · exact absurd ((submit_complete_iff p rid n frag).mp hb) hc
    · rw [submit_lookup, if_pos rfl, if_neg hc]

theorem claim_C1_witness :
    (((((alookup ([] : Pending) ("abc")).getD []).length + 1 : Nat) : Int) = 1 →
      (submit ([] : Pending) ("abc") 1 ⟨("m"), 5⟩).complete = true ∧
      (submit ([] : Pending) ("abc") 1 ⟨("m"), 5⟩).batch
        = (alookup ([] : Pending) ("abc")).getD [] ++ [⟨("m"), 5⟩] ∧
      alookup (submit ([] : Pending) ("abc") 1 ⟨("m"), 5⟩).pending ("abc") = none) ∧
    (¬ ((((alookup ([] : Pending) ("abc")).getD []).length + 1 : Nat) : Int) = 1 →
      (submit ([] : Pending) ("abc") 1 ⟨("m"), 5⟩).complete = false ∧
      alookup (submit ([] : Pending) ("abc") 1 ⟨("m"), 5⟩).pending ("abc")
        = some ((alookup ([] : Pending) ("abc")).getD [] ++ [⟨("m"), 5⟩])) :=
  claim_C1 [] ("abc") 1 ⟨("m"), 5⟩ (by decide) (by decide)

/-- C2 (counterexample): the completion check does not compare against
the expected count declared by the first fragment of a request. After
a first fragment for request `a` declaring expected count 3 (no
completion), a second fragment declaring 2 completes at accumulated
count 2, although the count declared by the first fragment was 3 and 2
is not 3. -/
theorem claim_C2_counterexample :
    (submit ([] : Pending) ("a") 3 ⟨("m1"), 1⟩).complete = false ∧
    (submit (submit ([] : Pending) ("a") 3 ⟨("m1"), 1⟩).pending
      ("a") 2 ⟨("m2"), 2⟩).complete = true ∧
    (2 : Int) ≠ 3 := by
  decide

/-- C2 (amended): the completion check compares the accumulated
fragment count against the expected count carried by the current
submit call message; counts declared by earlier fragments of the
request, including the first, are not stored in the pending entry and
are not consulted. -/
theorem claim_C2_amended (p : Pending) (rid : String) (len : Int) (frag : Metric) :
    (submit p rid len frag).complete = true ↔
      ((((alookup p rid).getD []).length + 1 : Nat) : Int) = len :=
  submit_complete_iff p rid len frag

/-- C3: for every sequence of exactly `expectedCount` fragments
submitted for a single request identifier, in any sequential
interleaving order relative to submissions for other request
identifiers, the buffer emits exactly one completion event for that
identifier, containing exactly the submitted fragments in submission
order, once the count is reached; the entry is removed, so a
subsequent submission under the same identifier starts a fresh (empty)
entry. -/
theorem claim_C3 (tr : List Call) (p : Pending) (r : String)
    (fs : List Metric) (k : Nat)
    (hp : alookup p r = none)
    (hfrag : (tr.filter (fun c => c.rid == r)).map Call.frag = fs)
    (hk : fs.length = k) (hk0 : 0 < k)
    (hlen : ∀ c ∈ tr, c.rid = r → c.len = (k : Int)) :
    (runSubmits p tr).2.filter (fun e => e.1 == r) = [(r, fs)] ∧
    alookup (runSubmits p tr).1 r = none := by
  have hfs : fs ≠ [] := by
    intro hh
    rw [hh] at hk
    simp at hk
    omega
  have hg : (alookup p r).getD [] = [] := by rw [hp]; rfl
  have hlen' : ∀ c ∈ tr, c.rid = r →
      c.len = (((([] : List Metric).length + fs.length : Nat)) : Int) := by
    intro c hm heq
    rw [hlen c hm heq, hk]
    simp
  have h := run_complete_inv tr p r [] fs hfs hg hfrag hlen'
  simpa using h

theorem claim_C3_witness :
    (runSubmits [] [⟨("abc"), 3, ⟨("a1"), 1⟩⟩, ⟨("z"), 7, ⟨("b1"), 9⟩⟩,
        ⟨("abc"), 3, ⟨("a2"), 2⟩⟩, ⟨("abc"), 3, ⟨("a3"), 3⟩⟩]).2.filter
        (fun e => e.1 == ("abc" : String))
      = [(("abc" : String), [⟨("a1"), 1⟩, ⟨("a2"), 2⟩, ⟨("a3"), 3⟩])] ∧
    alookup (runSubmits [] [⟨("abc"), 3, ⟨("a1"), 1⟩⟩, ⟨("z"), 7, ⟨("b1"), 9⟩⟩,
        ⟨("abc"), 3, ⟨("a2"), 2⟩⟩, ⟨("abc"), 3, ⟨("a3"), 3⟩⟩]).1 ("abc") = none :=
  claim_C3 [⟨("abc"), 3, ⟨("a1"), 1⟩⟩, ⟨("z"), 7, ⟨("b1"), 9⟩⟩,
      ⟨("abc"), 3, ⟨("a2"), 2⟩⟩, ⟨("abc"), 3, ⟨("a3"), 3⟩⟩] [] ("abc")
    [⟨("a1"), 1⟩, ⟨("a2"), 2⟩, ⟨("a3"), 3⟩] 3
    (by decide) (by decide) (by decide) (by decide) (by decide)

/-- C4: a pending entry for a request identifier exists only between
the arrival of its first fragment and the arrival of the fragment that
makes the accumulated count equal the declared expected count: a
submit call for the identifier creates the entry when absent, removes
it exactly when the accumulated count reaches the declared count after
the append, leaves the entries of all other identifiers untouched, and
the only way an entry can disappear during a run is a completion event
for it — so entries for requests whose final fragment never arrives
persist in the store indefinitely. -/
theorem claim_C4 (p : Pending) (rid : String) (len : Int) (frag : Metric)
    (r : String) (q : Pending) (tr : List Call) :
    (alookup (submit p rid len frag).pending r =
      (if rid = r then
        (if ((((alookup p rid).getD []).length + 1 : Nat) : Int) = len then none
         else some ((alookup p rid).getD [] ++ [frag]))
      else alookup p r)) ∧
    (alookup (runSubmits q tr).1 r = none →
      alookup q r = none ∨ ∃ b, (r, b) ∈ (runSubmits q tr).2) :=
  ⟨submit_lookup p rid len frag r, run_remove_only_complete tr q r⟩

theorem claim_C4_witness :
    (alookup (submit ([] : Pending) ("x") 1 ⟨("m"), 1⟩).pending ("x") =
      (if ("x" : String) = ("x") then
        (if ((((alookup ([] : Pending) ("x")).getD []).length + 1 : Nat) : Int) = 1 then none
         else some ((alookup ([] : Pending) ("x")).getD [] ++ [⟨("m"), 1⟩]))
      else alookup ([] : Pending) ("x"))) ∧
    (alookup (runSubmits ([] : Pending) []).1 ("x") = none →
      alookup ([] : Pending) ("x") = none ∨
        ∃ b, (("x" : String), b) ∈ (runSubmits ([] : Pending) []).2) :=
  claim_C4 [] ("x") 1 ⟨("m"), 1⟩ ("x") [] []

/-- C5: for every request identifier and every sequence of submit
calls that accumulates strictly fewer than `expectedCount` fragments
for that identifier, no completion event is ever triggered for that
identifier and its entry remains pending with the accumulated
fragments. -/
theorem claim_C5 (tr : List Call) (p : Pending) (r : String)
    (fs : List Metric) (k : Int)
    (hp : alookup p r = none)
    (hfrag : (tr.filter (fun c => c.rid == r)).map Call.frag = fs)
    (hlt : ((fs.length : Nat) : Int) < k)
    (hlen : ∀ c ∈ tr, c.rid = r → c.len = k) :
    (runSubmits p tr).2.filter (fun e => e.1 == r) = [] ∧
    (fs ≠ [] → alookup (runSubmits p tr).1 r = some fs) := by
  have hg : (alookup p r).getD [] = [] := by rw [hp]; rfl
  have hsome : ([] : List Metric) ≠ [] → (alookup p r).isSome = true :=
    fun hh => absurd rfl hh
  have hlt' : ((([] : List Metric).length
      + (tr.filter (fun c => c.rid == r)).length : Nat) : Int) < k := by
    have hlenmap : (tr.filter (fun c => c.rid == r)).length = fs.length := by
      rw [← hfrag, List.length_map]
    rw [List.length_nil, hlenmap]
    simpa using hlt
  obtain ⟨h1, h2, h3⟩ := run_incomplete_inv tr p r [] k hg hsome hlt' hlen
  refine ⟨h1, ?_⟩
  intro hne
  have hgf : (alookup (runSubmits p tr).1 r).getD [] = fs := by
    simpa [hfrag] using h2
  have hs : (alookup (runSubmits p tr).1 r).isSome = true :=
    h3 (by simpa [hfrag] using hne)
  cases hfin : alookup (runSubmits p tr).1 r with
  | none =>
    rw [hfin] at hs
    simp at hs
  | some l =>
    rw [hfin, Option.getD_some] at hgf
    rw [hgf]

theorem claim_C5_witness :
    (runSubmits [] [⟨("x"), 3, ⟨("m1"), 1⟩⟩, ⟨("x"), 3, ⟨("m2"), 2⟩⟩]).2.filter
        (fun e => e.1 == ("x" : String)) = [] ∧
    (([⟨("m1"), 1⟩, ⟨("m2"), 2⟩] : List Metric) ≠ [] →
      alookup (runSubmits [] [⟨("x"), 3, ⟨("m1"), 1⟩⟩, ⟨("x"), 3, ⟨("m2"), 2⟩⟩]).1 ("x")
        = some [⟨("m1"), 1⟩, ⟨("m2"), 2⟩]) :=
  claim_C5 [⟨("x"), 3, ⟨("m1"), 1⟩⟩, ⟨("x"), 3, ⟨("m2"), 2⟩⟩] [] ("x")
    [⟨("m1"), 1⟩, ⟨("m2"), 2⟩] 3 (by decide) (by decide) (by decide) (by decide)

/-- C6: two distinct request identifiers do not interfere: a submit
call for one identifier leaves the pending entry of the other
identifier unchanged, and every fragment in a batch emitted for an
identifier was submitted under that identifier, so fragments submitted
for one identifier never appear in the batch emitted for another. -/
theorem claim_C6 (p : Pending) (rid : String) (len : Int) (frag : Metric)
    (r : String) (tr : List Call) (b : List Metric) (m : Metric) :
    (rid ≠ r → alookup (submit p rid len frag).pending r = alookup p r) ∧
    ((r, b) ∈ (runSubmits ([] : Pending) tr).2 → m ∈ b →
      ∃ c ∈ tr, c.rid = r ∧ c.frag = m) := by
  constructor
  · intro hne
    rw [submit_lookup]
    simp [hne]
  · intro hev hm
    rcases run_batch_mem tr [] r b m hev hm with ⟨l, hl, _⟩ | h
    · exact absurd hl (by simp [alookup])
    · exact h

theorem claim_C6_witness :
    ((("a" : String) ≠ ("b") →
      alookup (submit [(("b"), [⟨("q"), 7⟩])] ("a") 5 ⟨("f"), 1⟩).pending ("b")
        = alookup [(("b"), [⟨("q"), 7⟩])] ("b"))) ∧
    ((("b" : String), ([⟨("g"), 2⟩] : List Metric))
        ∈ (runSubmits ([] : Pending) [⟨("c"), 1, ⟨("g"), 2⟩⟩]).2 →
      (⟨("g"), 2⟩ : Metric) ∈ ([⟨("g"), 2⟩] : List Metric) →
      ∃ c ∈ ([⟨("c"), 1, ⟨("g"), 2⟩⟩] : List Call), c.rid = ("b") ∧ c.frag = ⟨("g"), 2⟩) :=
  claim_C6 [(("b"), [⟨("q"), 7⟩])] ("a") 5 ⟨("f"), 1⟩ ("b")
    [⟨("c"), 1, ⟨("g"), 2⟩⟩] [⟨("g"), 2⟩] ⟨("g"), 2⟩

/-- C7: for every inbound HTTP request to the metric endpoint whose
JSON body parses successfully, the handler responds with status 200
and body status `ok` exactly when the downstream consumer callback
returns no error, and with status 500 and body status `fail` exactly
when the downstream consumer callback returns an error. -/
theorem claim_C7 (next : PMetrics → Option String) (b : PutBody) :
    (handleMetricPut next (some b) = some ⟨200, ("ok")⟩ ↔
      next (buildMetrics b) = none) ∧
    (handleMetricPut next (some b) = some ⟨500, ("fail")⟩ ↔
      ∃ e, next (buildMetrics b) = some e) := by
  cases hn : next (buildMetrics b) with
  | none =>
    constructor
    · simp [handleMetricPut, hn]
    · simp [handleMetricPut, hn]
  | some e =>
    constructor
    · simp [handleMetricPut, hn]
    · simp [handleMetricPut, hn]

/-- C9: `Exporter.ConsumeMetrics` indexes position 0 of the resource
metrics collection and of its scope metrics collection without any
guard: on the empty metrics value — which the timer-based receiver
variant actually sends downstream — it hits the resource-metrics
indexing panic, and under the precondition that both collections are
non-empty the two collection-indexing panic branches are
unreachable. -/
theorem claim_C9 (p : Pending) (pm : PMetrics) (h : hasIndexHeader pm = true) :
    ConsumeMetrics p timerStartMessage = .error .rmIndex ∧
    ConsumeMetrics p pm ≠ .error .rmIndex ∧
    ConsumeMetrics p pm ≠ .error .smIndex := by
  refine ⟨rfl, ?_⟩
  unfold hasIndexHeader at h
  cases hrm : pm.resourceMetrics.head? with
  | none =>
    rw [hrm] at h
    exact absurd h (by simp)
  | some rm =>
    rw [hrm] at h
    have h2 : (!rm.scopeMetrics.isEmpty) = true := h
    cases hsl : rm.scopeMetrics with
    | nil =>
      rw [hsl] at h2
      simp at h2
    | cons sm sms =>
      have hsm : rm.scopeMetrics.head? = some sm := by rw [hsl]; rfl
      cases hloop : consumeLoop p (attrStr rm.attributes keyRequestId) sm.metrics with
      | error e =>
        have he := consumeLoop_error_dp sm.metrics p (attrStr rm.attributes keyRequestId) e hloop
        have hceq : ConsumeMetrics p pm = .error .dpIndex := by
          simp only [ConsumeMetrics, hrm, hsm, hloop, he]
        rw [hceq]
        exact ⟨by simp, by simp⟩
      | ok p1 =>
        have hcm := ConsumeMetrics_ok_spec p pm rm sm hrm hsm p1 hloop
        rw [hcm]
        constructor
        · split <;> simp
        · split <;> simp

theorem claim_C9_witness :
    ConsumeMetrics ([] : Pending) timerStartMessage = .error .rmIndex ∧
    ConsumeMetrics ([] : Pending) (mkMsg ("a") 1 ⟨("m"), 1⟩) ≠ .error .rmIndex ∧
    ConsumeMetrics ([] : Pending) (mkMsg ("a") 1 ⟨("m"), 1⟩) ≠ .error .smIndex :=
  claim_C9 [] (mkMsg ("a") 1 ⟨("m"), 1⟩) (by decide)

/-- C10: under the precondition that every message for a given request
identifier declares the same expected count, if a single submit call
appends several fragments at once so that the accumulated count
strictly exceeds the expected count without ever equaling it, then no
subsequent well-formed submit for that identifier ever returns
complete and the entry is never removed from the store, because the
completion test is strict equality of the accumulated count with the
declared count, not greater-or-equal. -/
theorem claim_C10 (pm₀ : PMetrics) (tr : List PMetrics) (p : Pending)
    (r : String) (k : Int)
    (hp : alookup p r = none)
    (hwf : ∀ pm ∈ pm₀ :: tr, wfMsg pm = true)
    (hrk : ∀ pm ∈ pm₀ :: tr, msgRid pm = r → msgLen pm = k)
    (hr0 : msgRid pm₀ = r)
    (hpos : 0 < msgFragCount pm₀)
    (hover : k < (msgFragCount pm₀ : Int)) :
    (runConsume p (pm₀ :: tr)).2.filter (fun e => e.1 == r) = [] ∧
    ∃ l', alookup (runConsume p (pm₀ :: tr)).1 r = some l' ∧ k < (l'.length : Int) := by
  obtain ⟨rm, sm, hrm, hsm, hdp⟩ := wfMsg_spec pm₀ (hwf pm₀ (List.mem_cons_self pm₀ tr))
  have hattr : attrStr rm.attributes keyRequestId = r := by
    rw [← hr0]
    simp only [msgRid, hrm]
  have hcount : msgFragCount pm₀ = sm.metrics.length := by
    simp only [msgFragCount, hrm, hsm]
  have hk0 : msgLen pm₀ = k := hrk pm₀ (List.mem_cons_self pm₀ tr) hr0
  have hlenattr : attrInt rm.attributes keyLen = k := by
    rw [← hk0]
    simp only [msgLen, hrm]
  obtain ⟨p1, hp1⟩ := consumeLoop_ok sm.metrics p (attrStr rm.attributes keyRequestId) hdp
  have hcm := ConsumeMetrics_ok_spec p pm₀ rm sm hrm hsm p1 hp1
  have hold : ((alookup p (attrStr rm.attributes keyRequestId)).getD []) = [] := by
    rw [hattr, hp]
    rfl
  have hlen1 : ((alookup p1 (attrStr rm.attributes keyRequestId)).getD []).length
      = sm.metrics.length := by
    rw [consumeLoop_length sm.metrics p p1 (attrStr rm.attributes keyRequestId) hp1, hold]
    simp
  have hcond : ¬ ((((alookup p1 (attrStr rm.attributes keyRequestId)).getD []).length : Int)
      = attrInt rm.attributes keyLen) := by
    rw [hlen1, hlenattr]
    intro hh
    rw [hcount] at hover
    omega
  obtain ⟨l₀, hl₀, hl₀len⟩ : ∃ l₀, alookup p1 r = some l₀ ∧ l₀.length = sm.metrics.length := by
    cases hfin : alookup p1 (attrStr rm.attributes keyRequestId) with
    | none =>
      rw [hfin] at hlen1
      simp at hlen1
      rw [hcount] at hpos
      omega
    | some l₀ =>
      rw [hfin, Option.getD_some] at hlen1
      exact ⟨l₀, by rw [← hattr]; exact hfin, hlen1⟩
  have hover' : k < (l₀.length : Int) := by
    rw [hl₀len, ← hcount]
    exact hover
  have hrest := run_overshoot_inv tr p1 r k l₀ hl₀ hover'
    (fun m hm => hwf m (List.mem_cons_of_mem pm₀ hm))
    (fun m hm => hrk m (List.mem_cons_of_mem pm₀ hm))
  refine ⟨?_, ?_⟩
  · simp only [runConsume, hcm, if_neg hcond]
    simpa using hrest.1
  · simp only [runConsume, hcm, if_neg hcond]
    exact hrest.2

theorem claim_C10_witness :
    (runConsume []
        [⟨[⟨[(keyLen, .int 2), (keyRequestId, .str ("x"))],
            [⟨[⟨("a"), [1]⟩, ⟨("b"), [2]⟩, ⟨("c"), [3]⟩]⟩]⟩]⟩,
          mkMsg ("x") 2 ⟨("d"), 4⟩]).2.filter (fun e => e.1 == ("x" : String)) = [] ∧
    ∃ l', alookup (runConsume []
        [⟨[⟨[(keyLen, .int 2), (keyRequestId, .str ("x"))],
            [⟨[⟨("a"), [1]⟩, ⟨("b"), [2]⟩, ⟨("c"), [3]⟩]⟩]⟩]⟩,
          mkMsg ("x") 2 ⟨("d"), 4⟩]).1 ("x") = some l' ∧ (2 : Int) < (l'.length : Int) :=
  claim_C10 ⟨[⟨[(keyLen, .int 2), (keyRequestId, .str ("x"))],
      [⟨[⟨("a"), [1]⟩, ⟨("b"), [2]⟩, ⟨("c"), [3]⟩]⟩]⟩]⟩
    [mkMsg ("x") 2 ⟨("d"), 4⟩] [] ("x") 2
    (by decide) (by decide) (by decide) (by decide) (by decide) (by decide)

end Magic
